import Mathlib

/-!
Verification development for the background task subsystem of the checking-ssl
repository: a shallow embedding of the task executor in
src/backend/src/background.py and of the recurring scheduler in
src/backend/src/scheduler.py, with theorems about the embedded operations.

Modelling conventions:
* datetime.utcnow timestamps are natural numbers (seconds since some epoch);
  ISO-formatted timestamp strings compare lexicographically exactly like the
  underlying timestamps, so string sort keys are modelled by numeric keys.
* Python dicts (insertion ordered) are association lists over String keys with
  replace-in-place update semantics (dictSet below); dict.get is dictGet,
  dict.pop is dictPop.
* Submitted task bodies (async callables) are external collaborators: the
  outcome of one finished run attempt is an oracle value of type
  Except String String supplied to the step that models the coroutine
  finishing (Except.ok models a returned payload, Except.error a raised
  exception or timeout, both of which go through the same failure handler).
* The asyncio task handles stored as values of the running-task dict carry no
  state the code reads apart from membership, so the dict is modelled by its
  key list; the concurrency test is the length comparison the code performs.
* Free-form metadata dicts, logging, and the semaphore object (acquired for
  the whole body of every started run, redundant with the length bound the
  processing loop enforces) are not modelled; no claim mentions them.
-/

namespace CheckingSSL

/-! ### Python dict primitives over association lists -/

def dictGet {α : Type} (k : String) : List (String × α) → Option α
  | [] => none
  | (k2, v) :: rest => if k2 = k then some v else dictGet k rest

def dictSet {α : Type} (k : String) (v : α) : List (String × α) → List (String × α)
  | [] => [(k, v)]
  | (k2, v2) :: rest => if k2 = k then (k, v) :: rest else (k2, v2) :: dictSet k v rest

def dictUpdate {α : Type} (k : String) (f : α → α) : List (String × α) →
    List (String × α)
  | [] => []
  | (k2, v2) :: rest => if k2 = k then (k, f v2) :: rest else (k2, v2) :: dictUpdate k f rest

def dictPop {α : Type} (k : String) (l : List (String × α)) : List (String × α) :=
  l.filter fun p => decide (p.1 ≠ k)

/-! ### Data model: TaskStatus, TaskPriority, TaskResult, BackgroundTask
    (background.py lines 26-86) -/

inductive TaskStatus where
  | pending
  | running
  | completed
  | failed
  | cancelled
  | retrying
deriving DecidableEq

inductive TaskPriority where
  | low
  | normal
  | high
  | critical
deriving DecidableEq

/-- Numeric value of a TaskPriority, as in the Python enum (LOW=1 .. CRITICAL=4). -/
def TaskPriority.value : TaskPriority → Nat
  | .low => 1
  | .normal => 2
  | .high => 3
  | .critical => 4

/-- TaskResult dataclass (background.py lines 44-55); the opaque result payload
    is modelled as a String. -/
structure TaskResult where
  task_id : String
  status : TaskStatus
  result : Option String := none
  error : Option String := none
  start_time : Option Nat := none
  end_time : Option Nat := none
  duration_seconds : Option Nat := none
  retry_count : Nat := 0
deriving DecidableEq

/-- BackgroundTask dataclass (background.py lines 72-86); the func/args/kwargs
    fields are external callables modelled by the attempt-outcome oracle of
    ExecutorState.finish_attempt. -/
structure BackgroundTask where
  task_id : String
  name : String
  priority : TaskPriority := .normal
  max_retries : Nat := 3
  retry_delay : Nat := 5
  timeout : Option Nat := none
  created_at : Nat := 0
  scheduled_at : Option Nat := none
deriving DecidableEq

/-- In-memory state of BackgroundTaskExecutor (background.py lines 92-120). -/
structure ExecutorState where
  max_concurrent_tasks : Nat := 5
  default_timeout : Nat := 300
  max_result_age : Nat := 86400
  tasks : List (String × BackgroundTask) := []
  results : List (String × TaskResult) := []
  running_tasks : List String := []
  is_running : Bool := false
deriving DecidableEq

/-- Freshly constructed executor (background.py constructor, lines 92-120). -/
def initialExecutor (maxConc timeout age : Nat) : ExecutorState :=
  { max_concurrent_tasks := maxConc, default_timeout := timeout,
    max_result_age := age }

/-! ### Executor operations (background.py lines 122-514) -/

/-- BackgroundTaskExecutor.start, lines 122-135 (loop spawning aside: the two
    loops are modelled as the process and cleanup steps of ExecStep). -/
def ExecutorState.start (s : ExecutorState) : ExecutorState :=
  if s.is_running then s else { s with is_running := true }

/-- BackgroundTaskExecutor.submit_task, lines 189-241.  The Python code draws
    task_id from uuid4; here the id is a parameter.  Python computes
    timeout or self.default_timeout, whose or-semantics treat an explicit 0 as
    falsy, hence the inner test. -/
def ExecutorState.submit_task (s : ExecutorState) (task_id nm : String)
    (priority : TaskPriority) (max_retries retry_delay : Nat)
    (timeout : Option Nat) (scheduled_at : Option Nat) (now : Nat) : ExecutorState :=
  { s with
    tasks := dictSet task_id
      { task_id := task_id, name := nm, priority := priority,
        max_retries := max_retries, retry_delay := retry_delay,
        timeout := some (match timeout with
          | some t => if t = 0 then s.default_timeout else t
          | none => s.default_timeout),
        created_at := now, scheduled_at := scheduled_at } s.tasks,
    results := dictSet task_id { task_id := task_id, status := .pending } s.results }

/-- Result-record mutation done by _start_task (lines 358-361). -/
def startResult (r : TaskResult) (now : Nat) : TaskResult :=
  { r with status := .running, start_time := some now }

/-- BackgroundTaskExecutor._start_task, lines 354-374: mark the record Running,
    stamp start_time, and register the spawned coroutine in the running map. -/
def ExecutorState.start_task (s : ExecutorState) (tid : String) (now : Nat) :
    ExecutorState :=
  { s with
    results := dictUpdate tid (fun r => startResult r now) s.results,
    running_tasks := s.running_tasks ++ [tid] }

/-- Ready-candidate filter of _process_pending_tasks (lines 327-339): keep
    backlog entries whose scheduled_at is unset or not after now and which are
    not already running. -/
def readyTasks (s : ExecutorState) (now : Nat) : List (String × BackgroundTask) :=
  s.tasks.filter fun p =>
    (match p.2.scheduled_at with
      | some sa => decide (sa ≤ now)
      | none => true)
    && !(decide (p.1 ∈ s.running_tasks))

/-- One step of a stable descending insertion sort: x is placed before the
    first element whose key is not greater, so elements with equal keys keep
    their original relative order, as Python's stable sort with reverse=True
    does. -/
def insDesc {α : Type} (key : α → Nat) (x : α) : List α → List α
  | [] => [x]
  | y :: ys => if key x < key y then y :: insDesc key x ys else x :: y :: ys

/-- Stable sort by a Nat key in descending order; models
    list.sort(key=..., reverse=True) at line 345 and line 280. -/
def sortByKeyDesc {α : Type} (key : α → Nat) : List α → List α
  | [] => []
  | x :: xs => insDesc key x (sortByKeyDesc key xs)

/-- Sort key of the ready-candidate sort (line 345): the priority value. -/
def prioKey (p : String × BackgroundTask) : Nat := p.2.priority.value

/-- Start loop of _process_pending_tasks (lines 348-352): walk the sorted
    candidates, stopping as soon as the running-task count has reached
    max_concurrent_tasks. -/
def startLoop (now : Nat) : ExecutorState → List (String × BackgroundTask) → ExecutorState
  | s, [] => s
  | s, (tid, _) :: rest =>
    if s.max_concurrent_tasks ≤ s.running_tasks.length then s
    else startLoop now (s.start_task tid now) rest

/-- BackgroundTaskExecutor._process_pending_tasks, lines 321-352. -/
def ExecutorState.process_pending_tasks (s : ExecutorState) (now : Nat) : ExecutorState :=
  if s.tasks.isEmpty then s
  else if (readyTasks s now).isEmpty then s
  else startLoop now s (sortByKeyDesc prioKey (readyTasks s now))

/-- Success path of _execute_task (lines 396-402): store the payload, stamp
    end_time and the derived duration, set Completed.  The error field is not
    touched. -/
def completeResult (r : TaskResult) (payload : String) (now : Nat) : TaskResult :=
  { r with status := .completed, result := some payload, end_time := some now,
           duration_seconds := r.start_time.map fun st => now - st }

/-- BackgroundTaskExecutor._handle_task_failure, lines 429-467: bump the retry
    counter; if it is still within max_retries, mark Retrying, record the error
    and schedule the retry at now + retry_delay; otherwise mark Failed, record
    the error and stamp end_time/duration. -/
def handle_task_failure (r : TaskResult) (task : BackgroundTask) (error_msg : String)
    (now : Nat) : TaskResult × BackgroundTask :=
  let r1 := { r with retry_count := r.retry_count + 1 }
  if r1.retry_count ≤ task.max_retries then
    ({ r1 with status := .retrying, error := some error_msg },
     { task with scheduled_at := some (now + task.retry_delay) })
  else
    ({ r1 with status := .failed, error := some error_msg, end_time := some now,
               duration_seconds := r1.start_time.map fun st => now - st },
     task)

/-- One running attempt finishing, combining the outcome handling of
    _execute_task (lines 376-427) with the _task_completed done-callback
    (lines 469-477): update the record (and, on a retry, the re-queued backlog
    entry), drop the id from the running map, and drop the backlog entry
    unless the record is Retrying.  The guards mirror the fact that only a
    started, not-yet-finished coroutine can fire the callback. -/
def ExecutorState.finish_attempt (s : ExecutorState) (tid : String)
    (outcome : Except String String) (now : Nat) : ExecutorState :=
  if tid ∈ s.running_tasks then
    match dictGet tid s.results, dictGet tid s.tasks with
    | some r, some task =>
      match outcome with
      | .ok payload =>
        { s with
          results := dictSet tid (completeResult r payload now) s.results,
          tasks := dictPop tid s.tasks,
          running_tasks := s.running_tasks.filter fun t => decide (t ≠ tid) }
      | .error msg =>
        { s with
          results := dictSet tid (handle_task_failure r task msg now).1 s.results,
          tasks := if (handle_task_failure r task msg now).1.status = .retrying
                   then dictSet tid (handle_task_failure r task msg now).2 s.tasks
                   else dictPop tid s.tasks,
          running_tasks := s.running_tasks.filter fun t => decide (t ≠ tid) }
    | _, _ => s
  else s

/-- Record mutation stop() applies to a running task (lines 152-154) and that
    the CancelledError branch of _execute_task applies (lines 417-421). -/
def cancelResult (r : TaskResult) (now : Nat) : TaskResult :=
  { r with status := .cancelled, end_time := some now }

/-- First loop of stop (lines 146-154): cancel each running task, updating its
    record only when the id is present in the results map. -/
def stopCancelRunning (now : Nat) (running : List String)
    (results : List (String × TaskResult)) : List (String × TaskResult) :=
  running.foldl (fun acc tid =>
    if (dictGet tid acc).isSome then
      dictUpdate tid (fun r => cancelResult r now) acc
    else acc) results

/-- Second loop of stop (lines 156-163): walk the backlog, inserting a fresh
    Cancelled record only for ids absent from the results map. -/
def stopCancelPending (tasks : List (String × BackgroundTask))
    (results : List (String × TaskResult)) : List (String × TaskResult) :=
  tasks.foldl (fun acc p =>
    if (dictGet p.1 acc).isSome then acc
    else dictSet p.1 { task_id := p.1, status := .cancelled } acc) results

/-- BackgroundTaskExecutor.stop, lines 137-187: early return when not running;
    otherwise run the two cancellation loops over the results map and clear
    the backlog and running maps. -/
def ExecutorState.stop (s : ExecutorState) (now : Nat) : ExecutorState :=
  if s.is_running then
    { s with is_running := false,
             results := stopCancelPending s.tasks
               (stopCancelRunning now s.running_tasks s.results),
             tasks := [], running_tasks := [] }
  else s

/-- Terminal-status test of _cleanup_old_results (line 502). -/
def isFinishedStatus (st : TaskStatus) : Bool :=
  decide (st = .completed) || decide (st = .failed) || decide (st = .cancelled)

/-- Deletion condition of _cleanup_old_results (lines 500-509): terminal status
    and an end_time that is present and older than the cutoff. -/
def shouldClean (cutoff : Nat) (r : TaskResult) : Bool :=
  isFinishedStatus r.status &&
    (match r.end_time with
      | some e => decide (e < cutoff)
      | none => false)

/-- BackgroundTaskExecutor._cleanup_old_results, lines 495-514.  The cutoff is
    now - max_result_age (truncated at zero, matching a pre-epoch datetime
    cutoff that no stored end_time undercuts). -/
def ExecutorState.cleanup_old_results (s : ExecutorState) (now : Nat) : ExecutorState :=
  { s with
    results := s.results.filter fun p => !(shouldClean (now - s.max_result_age) p.2),
    tasks := s.tasks.filter fun p =>
      match dictGet p.1 s.results with
      | some r => !(shouldClean (now - s.max_result_age) r)
      | none => true }

/-- Summary dict produced by list_tasks for one record (lines 260-277): the
    record fields from TaskResult.to_dict, extended with name, priority and
    created_at only when the id is still in the backlog map. -/
structure TaskSummary where
  task_id : String
  status : TaskStatus
  result : Option String
  error : Option String
  end_time : Option Nat
  retry_count : Nat
  name : Option String
  priority : Option Nat
  created_at : Option Nat
deriving DecidableEq

def summarize (tasks : List (String × BackgroundTask)) (p : String × TaskResult) :
    TaskSummary :=
  { task_id := p.1, status := p.2.status, result := p.2.result, error := p.2.error,
    end_time := p.2.end_time, retry_count := p.2.retry_count,
    name := (dictGet p.1 tasks).map fun t => t.name,
    priority := (dictGet p.1 tasks).map fun t => t.priority.value,
    created_at := (dictGet p.1 tasks).map fun t => t.created_at }

/-- Sort key of list_tasks (line 280): x.get(created_at-key, empty-string); an
    ISO timestamp string for time t compares like t, and the empty-string
    default sorts below every timestamp, hence none maps to 0 and some t to
    t + 1. -/
def createdKey (sm : TaskSummary) : Nat :=
  match sm.created_at with
  | some t => t + 1
  | none => 0

/-- Status filter of list_tasks (line 261). -/
def statusMatch (flt : Option TaskStatus) (r : TaskResult) : Bool :=
  match flt with
  | some st => decide (r.status = st)
  | none => true

/-- BackgroundTaskExecutor.list_tasks, lines 252-285.  Python truncates with
    tasks[:limit] under an if limit: guard, so an explicit limit of 0 (falsy)
    does not truncate. -/
def ExecutorState.list_tasks (s : ExecutorState) (flt : Option TaskStatus)
    (limit : Option Nat) : List TaskSummary :=
  match limit with
  | some n =>
    if n = 0 then
      sortByKeyDesc createdKey
        (((s.results.filter fun p => statusMatch flt p.2).map (summarize s.tasks)))
    else
      (sortByKeyDesc createdKey
        (((s.results.filter fun p => statusMatch flt p.2).map (summarize s.tasks)))).take n
  | none =>
    sortByKeyDesc createdKey
      (((s.results.filter fun p => statusMatch flt p.2).map (summarize s.tasks)))

/-! ### Executor transition system -/

/-- One atomic event of the executor's cooperative event loop: a lifecycle
    call, a submission, one sweep of the processing loop, one running attempt
    finishing with an oracle outcome, or one sweep of the cleanup loop. -/
inductive ExecStep : ExecutorState → ExecutorState → Prop where
  | start (s : ExecutorState) : ExecStep s s.start
  | stop (s : ExecutorState) (now : Nat) : ExecStep s (s.stop now)
  | submit (s : ExecutorState) (tid nm : String) (prio : TaskPriority)
      (mr rd : Nat) (tmo sa : Option Nat) (now : Nat) :
      ExecStep s (s.submit_task tid nm prio mr rd tmo sa now)
  | process (s : ExecutorState) (now : Nat) : ExecStep s (s.process_pending_tasks now)
  | finish (s : ExecutorState) (tid : String) (outcome : Except String String)
      (now : Nat) : ExecStep s (s.finish_attempt tid outcome now)
  | cleanup (s : ExecutorState) (now : Nat) : ExecStep s (s.cleanup_old_results now)

/-- States reachable from a freshly constructed executor. -/
inductive Reachable : ExecutorState → Prop where
  | init (maxConc timeout age : Nat) : Reachable (initialExecutor maxConc timeout age)
  | step {s s2 : ExecutorState} : Reachable s → ExecStep s s2 → Reachable s2

/-! ### Single-task run semantics for the retry claims -/

/-- View of one submitted task: its record, its backlog entry, and whether the
    id is still in the backlog map. -/
structure SingleRun where
  res : TaskResult
  task : BackgroundTask
  inBacklog : Bool
deriving DecidableEq

/-- One tick of the loop for a single always-failing task with no competing
    tasks: if the task is still in the backlog it is started (_start_task) and
    its attempt raises, going through _handle_task_failure and the
    _task_completed callback; otherwise nothing happens. -/
def failStep (msg : String) (t : Nat) (sr : SingleRun) : SingleRun :=
  if sr.inBacklog then
    let r1 := startResult sr.res t
    let rt := handle_task_failure r1 sr.task msg t
    { res := rt.1, task := rt.2, inBacklog := decide (rt.1.status = .retrying) }
  else sr

/-- State of a single always-failing submitted task after n loop ticks; the
    oracle msgs gives the message of the exception raised on each attempt and
    times the clock at each tick (attempts are numbered from 1). -/
def failRun (task : BackgroundTask) (msgs : Nat → String) (times : Nat → Nat) :
    Nat → SingleRun
  | 0 => { res := { task_id := task.task_id, status := .pending },
           task := task, inBacklog := true }
  | n + 1 => failStep (msgs (n + 1)) (times (n + 1)) (failRun task msgs times n)

/-! ### Recurring scheduler (scheduler.py) -/

/-- Envelope returned by the three scheduled callbacks (scheduler.py lines
    204-348); its internals are opaque to the scheduler core, so the payload
    is a String. -/
structure JobEnvelope where
  job_type : String
  status : String
  payload : Option String := none
  error : Option String := none
deriving DecidableEq

/-- SchedulerService state: the registered job ids (MemoryJobStore) and the
    running flag (scheduler.py lines 55-75). -/
structure SchedulerState where
  jobs : List String := []
  is_running : Bool := false
deriving DecidableEq

/-- add_job with replace_existing=True: register an id, keeping the store
    free of duplicates. -/
def registerJob (jid : String) (jobs : List String) : List String :=
  if jid ∈ jobs then jobs else jobs ++ [jid]

/-- SchedulerService.start, lines 77-103: register the weekly check, the
    expiry-notification sweep and the health check, then activate the clock;
    no-op with a warning when already running. -/
def SchedulerService.start (s : SchedulerState) : SchedulerState :=
  if s.is_running then s
  else
    { jobs := registerJob "scheduler_health_check"
        (registerJob "expiry_notifications"
          (registerJob "weekly_ssl_check" s.jobs)),
      is_running := true }

/-- SchedulerService.stop, lines 105-122: early return with a warning when not
    running; otherwise shut the clock down (jobs live for the scheduler's
    lifetime and are gone after shutdown) and clear the running flag. -/
def SchedulerService.stop (s : SchedulerState) : SchedulerState :=
  if s.is_running then { jobs := [], is_running := false } else s

/-- Result dict of trigger_job_now (scheduler.py lines 405-417). -/
structure TriggerOutcome where
  triggered : Bool
  job_id : String
  result : Option JobEnvelope := none
  error : Option String := none
deriving DecidableEq

/-- SchedulerService.trigger_job_now, lines 386-417: look the job up in the
    store, dispatch to the matching callback (whose envelope is supplied here
    as an oracle, since the callbacks catch their own exceptions and always
    return an envelope), and catch every raised error into a triggered=false
    outcome instead of propagating it. -/
def SchedulerService.trigger_job_now (s : SchedulerState) (job_id : String)
    (weekly expiry health : JobEnvelope) : TriggerOutcome :=
  if job_id ∈ s.jobs then
    if job_id = "weekly_ssl_check" then
      { triggered := true, job_id := job_id, result := some weekly }
    else if job_id = "expiry_notifications" then
      { triggered := true, job_id := job_id, result := some expiry }
    else if job_id = "scheduler_health_check" then
      { triggered := true, job_id := job_id, result := some health }
    else
      { triggered := false, job_id := job_id,
        error := some ("지원하지 않는 작업입니다: " ++ job_id) }
  else
    { triggered := false, job_id := job_id,
      error := some ("작업을 찾을 수 없습니다: " ++ job_id) }

/-! ### Lemmas about the dict primitives -/

theorem dictGet_dictSet_self {α : Type} (k : String) (v : α) (l : List (String × α)) :
    dictGet k (dictSet k v l) = some v := by
  induction l with
  | nil => simp [dictGet, dictSet]
  | cons p rest ih =>
    obtain ⟨k2, v2⟩ := p
    by_cases h : k2 = k
    · simp [dictSet, h, dictGet]
    · simp [dictSet, h, dictGet, ih]

theorem dictGet_dictSet_ne {α : Type} {k1 k : String} (h : k1 ≠ k) (v : α)
    (l : List (String × α)) : dictGet k1 (dictSet k v l) = dictGet k1 l := by
  induction l with
  | nil => simp [dictGet, dictSet, Ne.symm h]
  | cons p rest ih =>
    obtain ⟨k2, v2⟩ := p
    by_cases h2 : k2 = k
    · subst h2
      simp [dictSet, dictGet, Ne.symm h]
    · simp [dictSet, h2, dictGet, ih]

theorem mem_dictSet {α : Type} {p : String × α} {k : String} {v : α}
    {l : List (String × α)} (h : p ∈ dictSet k v l) : p = (k, v) ∨ p ∈ l := by
  induction l with
  | nil => simpa [dictSet] using h
  | cons q rest ih =>
    obtain ⟨k2, v2⟩ := q
    by_cases h2 : k2 = k
    · rw [dictSet] at h
      simp only [h2, if_true] at h
      rcases List.mem_cons.mp h with h3 | h3
      · exact Or.inl h3
      · exact Or.inr (List.mem_cons_of_mem _ h3)
    · rw [dictSet] at h
      simp only [h2, if_false] at h
      rcases List.mem_cons.mp h with h3 | h3
      · exact Or.inr (h3 ▸ List.mem_cons_self _ _)
      · rcases ih h3 with h4 | h4
        · exact Or.inl h4
        · exact Or.inr (List.mem_cons_of_mem _ h4)

theorem mem_keys_dictSet {α : Type} {k3 k : String} (v : α) (l : List (String × α)) :
    k3 ∈ (dictSet k v l).map Prod.fst ↔ k3 = k ∨ k3 ∈ l.map Prod.fst := by
  induction l with
  | nil => simp [dictSet]
  | cons p rest ih =>
    obtain ⟨k2, v2⟩ := p
    by_cases h2 : k2 = k
    · subst h2
      rw [dictSet, if_pos rfl]
      simp only [List.map_cons, List.mem_cons]
      tauto
    · rw [dictSet, if_neg h2]
      simp only [List.map_cons, List.mem_cons, ih]
      tauto

theorem keys_nodup_dictSet {α : Type} (k : String) (v : α) {l : List (String × α)}
    (h : (l.map Prod.fst).Nodup) : ((dictSet k v l).map Prod.fst).Nodup := by
  induction l with
  | nil => simp [dictSet]
  | cons p rest ih =>
    obtain ⟨k2, v2⟩ := p
    rw [List.map_cons, List.nodup_cons] at h
    by_cases h2 : k2 = k
    · subst h2
      simpa [dictSet] using h
    · rw [dictSet]
      simp only [h2, if_false, List.map_cons, List.nodup_cons]
      refine ⟨?_, ih h.2⟩
      intro hmem
      rcases (mem_keys_dictSet v rest).mp hmem with h3 | h3
      · exact h2 h3
      · exact h.1 h3

theorem dictGet_dictUpdate_self {α : Type} (k : String) (f : α → α)
    (l : List (String × α)) : dictGet k (dictUpdate k f l) = (dictGet k l).map f := by
  induction l with
  | nil => simp [dictGet, dictUpdate]
  | cons p rest ih =>
    obtain ⟨k2, v2⟩ := p
    by_cases h : k2 = k
    · subst h
      rw [dictUpdate, if_pos rfl, dictGet, if_pos rfl, dictGet, if_pos rfl]
      rfl
    · rw [dictUpdate, if_neg h, dictGet, if_neg h, dictGet, if_neg h]
      exact ih

theorem dictGet_dictUpdate_ne {α : Type} {k1 k : String} (h : k1 ≠ k) (f : α → α)
    (l : List (String × α)) : dictGet k1 (dictUpdate k f l) = dictGet k1 l := by
  induction l with
  | nil => simp [dictGet, dictUpdate]
  | cons p rest ih =>
    obtain ⟨k2, v2⟩ := p
    by_cases h2 : k2 = k
    · subst h2
      rw [dictUpdate, if_pos rfl, dictGet, if_neg (Ne.symm h), dictGet,
        if_neg (Ne.symm h)]
    · rw [dictUpdate, if_neg h2, dictGet, dictGet]
      by_cases h3 : k2 = k1
      · simp [h3]
      · simp [h3, ih]

theorem keys_dictUpdate {α : Type} (k : String) (f : α → α) (l : List (String × α)) :
    (dictUpdate k f l).map Prod.fst = l.map Prod.fst := by
  induction l with
  | nil => rfl
  | cons p rest ih =>
    obtain ⟨k2, v2⟩ := p
    by_cases h : k2 = k
    · subst h
      rw [dictUpdate, if_pos rfl]
      simp
    · rw [dictUpdate, if_neg h, List.map_cons, List.map_cons, ih]

theorem mem_dictUpdate {α : Type} {p : String × α} {k : String} {f : α → α}
    {l : List (String × α)} (h : p ∈ dictUpdate k f l) :
    p ∈ l ∨ ∃ v, (k, v) ∈ l ∧ p = (k, f v) := by
  induction l with
  | nil => simp [dictUpdate] at h
  | cons q rest ih =>
    obtain ⟨k2, v2⟩ := q
    by_cases h2 : k2 = k
    · subst h2
      rw [dictUpdate, if_pos rfl] at h
      rcases List.mem_cons.mp h with h3 | h3
      · exact Or.inr ⟨v2, List.mem_cons_self _ _, h3⟩
      · exact Or.inl (List.mem_cons_of_mem _ h3)
    · rw [dictUpdate, if_neg h2] at h
      rcases List.mem_cons.mp h with h3 | h3
      · exact Or.inl (h3 ▸ List.mem_cons_self _ _)
      · rcases ih h3 with h4 | ⟨v, hv, hpv⟩
        · exact Or.inl (List.mem_cons_of_mem _ h4)
        · exact Or.inr ⟨v, List.mem_cons_of_mem _ hv, hpv⟩

theorem mem_of_dictGet {α : Type} {k : String} {v : α} {l : List (String × α)}
    (h : dictGet k l = some v) : (k, v) ∈ l := by
  induction l with
  | nil => simp [dictGet] at h
  | cons p rest ih =>
    obtain ⟨k2, v2⟩ := p
    by_cases h2 : k2 = k
    · subst h2
      rw [dictGet, if_pos rfl] at h
      have : v2 = v := Option.some.inj h
      subst this
      exact List.mem_cons_self _ _
    · rw [dictGet, if_neg h2] at h
      exact List.mem_cons_of_mem _ (ih h)

theorem dictGet_of_mem_nodup {α : Type} {k : String} {v : α} {l : List (String × α)}
    (hn : (l.map Prod.fst).Nodup) (h : (k, v) ∈ l) : dictGet k l = some v := by
  induction l with
  | nil => simp at h
  | cons p rest ih =>
    obtain ⟨k2, v2⟩ := p
    rw [List.map_cons, List.nodup_cons] at hn
    rcases List.mem_cons.mp h with h3 | h3
    · cases h3
      rw [dictGet, if_pos rfl]
    · have hk2 : k2 ≠ k := by
        intro he
        apply hn.1
        have hmem : (k, v).1 ∈ List.map Prod.fst rest := List.mem_map_of_mem Prod.fst h3
        simpa [he] using hmem
      rw [dictGet, if_neg hk2]
      exact ih hn.2 h3

theorem mem_dictPop {α : Type} {p : String × α} {k : String} {l : List (String × α)}
    (h : p ∈ dictPop k l) : p ∈ l ∧ p.1 ≠ k := by
  have h2 := List.mem_filter.mp h
  exact ⟨h2.1, of_decide_eq_true h2.2⟩

theorem keys_nodup_filter {α : Type} (q : String × α → Bool) {l : List (String × α)}
    (h : (l.map Prod.fst).Nodup) : ((l.filter q).map Prod.fst).Nodup :=
  List.Nodup.sublist (List.Sublist.map Prod.fst (List.filter_sublist l)) h

/-! ### Lemmas about the stable descending sort -/

theorem mem_insDesc {α : Type} (key : α → Nat) {a x : α} {l : List α} :
    a ∈ insDesc key x l ↔ a = x ∨ a ∈ l := by
  induction l with
  | nil => simp [insDesc]
  | cons y ys ih =>
    by_cases h : key x < key y
    · simp only [insDesc, h, if_true, List.mem_cons, ih]
      tauto
    · simp only [insDesc, h, if_false, List.mem_cons]

theorem pairwise_insDesc {α : Type} (key : α → Nat) (x : α) {l : List α}
    (h : l.Pairwise fun a b => key b ≤ key a) :
    (insDesc key x l).Pairwise fun a b => key b ≤ key a := by
  induction l with
  | nil => simp [insDesc]
  | cons y ys ih =>
    rcases List.pairwise_cons.mp h with ⟨hy, hys⟩
    by_cases hlt : key x < key y
    · rw [insDesc]
      simp only [hlt, if_true]
      refine List.pairwise_cons.mpr ⟨?_, ih hys⟩
      intro b hb
      rcases (mem_insDesc key).mp hb with rfl | hb
      · exact Nat.le_of_lt hlt
      · exact hy b hb
    · rw [insDesc]
      simp only [hlt, if_false]
      refine List.pairwise_cons.mpr ⟨?_, h⟩
      intro b hb
      rcases List.mem_cons.mp hb with rfl | hb
      · exact Nat.le_of_not_lt hlt
      · exact Nat.le_trans (hy b hb) (Nat.le_of_not_lt hlt)

theorem pairwise_sortByKeyDesc {α : Type} (key : α → Nat) (l : List α) :
    (sortByKeyDesc key l).Pairwise fun a b => key b ≤ key a := by
  induction l with
  | nil => simp [sortByKeyDesc]
  | cons x xs ih =>
    rw [sortByKeyDesc]
    exact pairwise_insDesc key x ih

theorem perm_insDesc {α : Type} (key : α → Nat) (x : α) (l : List α) :
    List.Perm (insDesc key x l) (x :: l) := by
  induction l with
  | nil => simp [insDesc]
  | cons y ys ih =>
    by_cases h : key x < key y
    · rw [insDesc]
      simp only [h, if_true]
      exact List.Perm.trans (List.Perm.cons y ih) (List.Perm.swap x y ys)
    · rw [insDesc]
      simp only [h, if_false]
      exact List.Perm.refl _

theorem perm_sortByKeyDesc {α : Type} (key : α → Nat) (l : List α) :
    List.Perm (sortByKeyDesc key l) l := by
  induction l with
  | nil => simp [sortByKeyDesc]
  | cons x xs ih =>
    rw [sortByKeyDesc]
    exact List.Perm.trans (perm_insDesc key x (sortByKeyDesc key xs))
      (List.Perm.cons x ih)

theorem mem_sortByKeyDesc {α : Type} (key : α → Nat) {a : α} {l : List α}
    (h : a ∈ sortByKeyDesc key l) : a ∈ l :=
  (perm_sortByKeyDesc key l).mem_iff.mp h

/-! ### Field lemmas for the executor operations -/

@[simp] theorem start_task_running (s : ExecutorState) (tid : String) (now : Nat) :
    (s.start_task tid now).running_tasks = s.running_tasks ++ [tid] := rfl

@[simp] theorem start_task_max (s : ExecutorState) (tid : String) (now : Nat) :
    (s.start_task tid now).max_concurrent_tasks = s.max_concurrent_tasks := rfl

@[simp] theorem start_task_tasks (s : ExecutorState) (tid : String) (now : Nat) :
    (s.start_task tid now).tasks = s.tasks := rfl

@[simp] theorem start_task_results (s : ExecutorState) (tid : String) (now : Nat) :
    (s.start_task tid now).results =
      dictUpdate tid (fun r => startResult r now) s.results := rfl

/-- The start loop appends exactly the longest prefix of the candidate ids that
    fits under the concurrency bound to the running map, in candidate order. -/
theorem startLoop_running (now : Nat) (l : List (String × BackgroundTask)) :
    ∀ s : ExecutorState,
      (startLoop now s l).running_tasks =
        s.running_tasks ++ (l.map Prod.fst).take
          (s.max_concurrent_tasks - s.running_tasks.length) := by
  induction l with
  | nil => intro s; simp [startLoop]
  | cons p rest ih =>
    intro s
    obtain ⟨tid, task⟩ := p
    by_cases h : s.max_concurrent_tasks ≤ s.running_tasks.length
    · have h0 : s.max_concurrent_tasks - s.running_tasks.length = 0 :=
        Nat.sub_eq_zero_of_le h
      rw [startLoop]
      simp [h, h0]
    · have h1 : s.max_concurrent_tasks - s.running_tasks.length
          = (s.max_concurrent_tasks - (s.running_tasks.length + 1)) + 1 := by omega
      rw [startLoop]
      simp only [h, if_false]
      rw [ih]
      simp only [start_task_running, start_task_max, List.length_append,
        List.length_singleton, List.map_cons]
      rw [h1, List.take_succ_cons, List.append_assoc, List.singleton_append]

/-- One sweep of the processing loop: the running map grows by the ready
    candidates, sorted by descending priority, up to the concurrency bound. -/
theorem process_running (s : ExecutorState) (now : Nat) :
    (s.process_pending_tasks now).running_tasks =
      s.running_tasks ++
        ((sortByKeyDesc prioKey (readyTasks s now)).map Prod.fst).take
          (s.max_concurrent_tasks - s.running_tasks.length) := by
  unfold ExecutorState.process_pending_tasks
  by_cases h1 : s.tasks.isEmpty
  · have h2 : readyTasks s now = [] := by
      unfold readyTasks
      rw [List.isEmpty_iff.mp h1]
      rfl
    simp [h1, h2, sortByKeyDesc]
  · simp only [h1, if_false]
    by_cases h2 : (readyTasks s now).isEmpty
    · rw [List.isEmpty_iff.mp h2]
      simp [sortByKeyDesc]
    · simp only [h2, if_false]
      exact startLoop_running now _ s

theorem startLoop_max (now : Nat) (l : List (String × BackgroundTask)) :
    ∀ s : ExecutorState,
      (startLoop now s l).max_concurrent_tasks = s.max_concurrent_tasks := by
  induction l with
  | nil => intro s; rfl
  | cons p rest ih =>
    intro s
    obtain ⟨tid, task⟩ := p
    rw [startLoop]
    by_cases h : s.max_concurrent_tasks ≤ s.running_tasks.length
    · simp [h]
    · simp only [h, if_false]
      rw [ih]
      rfl

theorem process_max (s : ExecutorState) (now : Nat) :
    (s.process_pending_tasks now).max_concurrent_tasks = s.max_concurrent_tasks := by
  unfold ExecutorState.process_pending_tasks
  by_cases h1 : s.tasks.isEmpty
  · simp [h1]
  · simp only [h1, if_false]
    by_cases h2 : (readyTasks s now).isEmpty
    · simp [h2]
    · simp only [h2, if_false]
      exact startLoop_max now _ s

theorem finish_running_length (s : ExecutorState) (tid : String)
    (outcome : Except String String) (now : Nat) :
    (s.finish_attempt tid outcome now).running_tasks.length ≤
      s.running_tasks.length := by
  unfold ExecutorState.finish_attempt
  split
  · split
    · split
      · exact List.length_filter_le _ _
      · exact List.length_filter_le _ _
    · exact Nat.le_refl _
  · exact Nat.le_refl _

theorem finish_max (s : ExecutorState) (tid : String)
    (outcome : Except String String) (now : Nat) :
    (s.finish_attempt tid outcome now).max_concurrent_tasks =
      s.max_concurrent_tasks := by
  unfold ExecutorState.finish_attempt
  split
  · split
    · split
      · rfl
      · rfl
    · rfl
  · rfl

theorem stop_running_empty_or_id (s : ExecutorState) (now : Nat) :
    (s.stop now).running_tasks = [] ∨ s.stop now = s := by
  unfold ExecutorState.stop
  by_cases h : s.is_running
  · left
    simp [h]
  · right
    simp [h]

theorem stop_max (s : ExecutorState) (now : Nat) :
    (s.stop now).max_concurrent_tasks = s.max_concurrent_tasks := by
  unfold ExecutorState.stop
  by_cases h : s.is_running <;> simp [h]

theorem stop_is_running_false (s : ExecutorState) (now : Nat) :
    (s.stop now).is_running = false := by
  unfold ExecutorState.stop
  by_cases h : s.is_running <;> simp [h]

theorem stop_not_running_id {s : ExecutorState} (h : s.is_running = false)
    (now : Nat) : s.stop now = s := by
  unfold ExecutorState.stop
  simp [h]

theorem start_running (s : ExecutorState) :
    (s.start).running_tasks = s.running_tasks := by
  unfold ExecutorState.start
  split <;> rfl

theorem start_max (s : ExecutorState) :
    (s.start).max_concurrent_tasks = s.max_concurrent_tasks := by
  unfold ExecutorState.start
  split <;> rfl

/-! ### Demo states used by concrete scenarios -/

/-- Two ready tasks of priorities High and Low on an executor with concurrency
    bound 1: the concrete scenario of the priority-ordering claim. -/
def c5s : ExecutorState :=
  (((initialExecutor 1 300 86400).start).submit_task "low1" "L"
      .low 3 5 none none 0).submit_task "high1" "H" .high 3 5 none none 0

def c5done : ExecutorState := c5s.process_pending_tasks 1

/-! ### Claim C5 -/

/-- C5: within one processing tick the ready candidates (scheduledAt unset or
    not after now, not already running) are started in descending priority
    order until the running-task count reaches maxConcurrentTasks: the running
    map grows by exactly the fitting prefix of the priority-sorted candidate
    list, that list is pairwise descending in priority value, and in the
    concrete scenario with concurrency 1 and ready tasks of priorities High
    and Low the High task is the one started. -/
theorem C5_priority_order (s : ExecutorState) (now : Nat) :
    ((s.process_pending_tasks now).running_tasks =
      s.running_tasks ++
        ((sortByKeyDesc prioKey (readyTasks s now)).map Prod.fst).take
          (s.max_concurrent_tasks - s.running_tasks.length)) ∧
    ((sortByKeyDesc prioKey (readyTasks s now)).Pairwise
      fun a b => prioKey b ≤ prioKey a) ∧
    (c5done.running_tasks = ["high1"]) := by
  refine ⟨process_running s now, pairwise_sortByKeyDesc prioKey _, by decide⟩

/-! ### Claim C7 -/

/-- C7: in every reachable executor state the running-task count never exceeds
    maxConcurrentTasks: the processing loop stops starting candidates at the
    bound, and the other steps only remove running entries or leave the
    running map unchanged. -/
theorem C7_concurrency_bound (s : ExecutorState) (h : Reachable s) :
    s.running_tasks.length ≤ s.max_concurrent_tasks := by
  induction h with
  | init maxConc tmo age => exact Nat.zero_le _
  | step hr hst ih =>
    rename_i s1 s2
    cases hst with
    | start =>
      rw [start_running, start_max]
      exact ih
    | stop now =>
      rcases stop_running_empty_or_id s1 now with h1 | h1
      · rw [h1]
        exact Nat.zero_le _
      · rw [h1]
        exact ih
    | submit tid nm prio mr rd tmo sa now => exact ih
    | process now =>
      rw [process_running, process_max]
      have h1 := List.length_take ((s1.max_concurrent_tasks -
        s1.running_tasks.length)) ((sortByKeyDesc prioKey
          (readyTasks s1 now)).map Prod.fst)
      rw [List.length_append, h1]
      omega
    | finish tid outcome now =>
      rw [finish_max]
      exact Nat.le_trans (finish_running_length s1 tid outcome now) ih
    | cleanup now => exact ih

/-- Witness for C7 at a concrete reachable state: after starting, submitting a
    Low and a High task and one processing tick on a concurrency-1 executor,
    one task is running and the bound holds. -/
theorem C7_witness :
    c5done.running_tasks.length ≤ c5done.max_concurrent_tasks := by
  have hreach : Reachable c5done :=
    Reachable.step
      (Reachable.step
        (Reachable.step
          (Reachable.step (Reachable.init 1 300 86400)
            (ExecStep.start _))
          (ExecStep.submit _ "low1" "L" .low 3 5 none none 0))
        (ExecStep.submit _ "high1" "H" .high 3 5 none none 0))
      (ExecStep.process _ 1)
  exact C7_concurrency_bound c5done hreach

/-! ### Claim C9 -/

/-- C9: calling stop twice in a row on the executor or on the scheduler leaves
    the state exactly as after the first call: the first call clears the
    running flag, and stop on a non-running component returns it unchanged
    (the early-return branch that only logs a warning).  Both model functions
    are total, which reflects that neither call raises. -/
theorem C9_stop_idempotent :
    (∀ (s : ExecutorState) (t1 t2 : Nat), (s.stop t1).stop t2 = s.stop t1) ∧
    (∀ sch : SchedulerState,
      SchedulerService.stop (SchedulerService.stop sch) =
        SchedulerService.stop sch) := by
  constructor
  · intro s t1 t2
    exact stop_not_running_id (stop_is_running_false s t1) t2
  · intro sch
    by_cases h : sch.is_running <;> simp [SchedulerService.stop, h]

/-! ### Claims C3 and C8: the retry path -/

/-- The failure handler only ever rewrites scheduled_at on the re-queued
    backlog entry, so the retry bound of the task is stable along the run. -/
theorem failRun_task_max (task : BackgroundTask) (msgs : Nat → String)
    (times : Nat → Nat) : ∀ n,
    (failRun task msgs times n).task.max_retries = task.max_retries := by
  intro n
  induction n with
  | zero => rfl
  | succ n ih =>
    simp only [failRun, failStep]
    by_cases hb : (failRun task msgs times n).inBacklog
    · simp only [hb, if_true, handle_task_failure, startResult]
      split <;> simp [ih]
    · simp [hb, ih]

/-- Full characterisation of the single-task always-failing run: up to
    max_retries ticks the task keeps being re-queued with status Retrying and
    retry_count equal to the number of attempts so far; on tick
    max_retries + 1 it becomes Failed with the last error message and leaves
    the backlog, after which nothing changes. -/
theorem failRun_spec (task : BackgroundTask) (msgs : Nat → String)
    (times : Nat → Nat) : ∀ n : Nat,
    (n ≤ task.max_retries →
      (failRun task msgs times n).res.retry_count = n ∧
      (failRun task msgs times n).inBacklog = true ∧
      (failRun task msgs times n).res.result = none ∧
      (n = 0 → (failRun task msgs times n).res.status = .pending) ∧
      (1 ≤ n → (failRun task msgs times n).res.status = .retrying ∧
        (failRun task msgs times n).res.error = some (msgs n)))
    ∧ (task.max_retries < n →
      (failRun task msgs times n).res.status = .failed ∧
      (failRun task msgs times n).res.retry_count = task.max_retries + 1 ∧
      (failRun task msgs times n).res.error = some (msgs (task.max_retries + 1)) ∧
      (failRun task msgs times n).inBacklog = false) := by
  intro n
  induction n with
  | zero =>
    constructor
    · intro _
      exact ⟨rfl, rfl, rfl, fun _ => rfl, fun h1 => absurd h1 (by omega)⟩
    · intro h
      exact absurd h (by omega)
  | succ n ihn =>
    by_cases hmle : n + 1 ≤ task.max_retries
    · have hn : n ≤ task.max_retries := by omega
      obtain ⟨hrc, hb, hres, hp0, hp1⟩ := ihn.1 hn
      have hmax := failRun_task_max task msgs times n
      constructor
      · intro _
        refine ⟨?_, ?_, ?_, fun h0 => absurd h0 (by omega), fun _ => ⟨?_, ?_⟩⟩ <;>
          simp [failRun, failStep, hb, startResult, handle_task_failure,
            hrc, hres, hmax, hmle]
      · intro hlt
        exact absurd hmle (by omega)
    · constructor
      · intro hle
        exact absurd hle hmle
      · intro _
        by_cases hn : n ≤ task.max_retries
        · have hneq : n = task.max_retries := by omega
          subst hneq
          obtain ⟨hrc, hb, hres, hp0, hp1⟩ := ihn.1 hn
          have hmax := failRun_task_max task msgs times task.max_retries
          refine ⟨?_, ?_, ?_, ?_⟩ <;>
            simp [failRun, failStep, hb, startResult, handle_task_failure,
              hrc, hres, hmax, hmle]
        · have hlt : task.max_retries < n := by omega
          obtain ⟨hst, hrc, herr, hb⟩ := ihn.2 hlt
          have hstep : failStep (msgs (n + 1)) (times (n + 1))
              (failRun task msgs times n) = failRun task msgs times n := by
            rw [failStep]
            simp [hb]
          simp only [failRun, hstep]
          exact ⟨hst, hrc, herr, hb⟩

/-- C3: a submitted task whose body raises on every attempt with
    maxRetries = m passes through Retrying on each of the first m loop passes
    (with retryCount equal to the attempts so far), becomes Failed on pass
    m + 1 with retryCount = m + 1 and the last error message persisted,
    retryCount never exceeds maxRetries + 1, and the task is Failed exactly
    when its retries are exhausted. -/
theorem C3_retry_exhaustion (task : BackgroundTask) (msgs : Nat → String)
    (times : Nat → Nat) :
    (∀ k, 1 ≤ k → k ≤ task.max_retries →
      (failRun task msgs times k).res.status = .retrying ∧
      (failRun task msgs times k).res.retry_count = k) ∧
    ((failRun task msgs times (task.max_retries + 1)).res.status = .failed ∧
      (failRun task msgs times (task.max_retries + 1)).res.retry_count =
        task.max_retries + 1 ∧
      (failRun task msgs times (task.max_retries + 1)).res.error =
        some (msgs (task.max_retries + 1))) ∧
    (∀ n, (failRun task msgs times n).res.retry_count ≤ task.max_retries + 1) ∧
    (∀ n, (failRun task msgs times n).res.status = .failed ↔
      task.max_retries + 1 ≤ n) := by
  have hspec := failRun_spec task msgs times
  refine ⟨?_, ?_, ?_, ?_⟩
  · intro k h1 h2
    obtain ⟨hrc, _, _, _, hp1⟩ := (hspec k).1 h2
    exact ⟨(hp1 h1).1, hrc⟩
  · exact ⟨((hspec _).2 (by omega)).1, ((hspec _).2 (by omega)).2.1,
      ((hspec _).2 (by omega)).2.2.1⟩
  · intro n
    by_cases h : n ≤ task.max_retries
    · have := ((hspec n).1 h).1
      omega
    · have := ((hspec n).2 (by omega)).2.1
      omega
  · intro n
    constructor
    · intro hf
      by_cases h : n ≤ task.max_retries
      · obtain ⟨_, _, _, hp0, hp1⟩ := (hspec n).1 h
        by_cases h0 : n = 0
        · have hpend := hp0 h0
          rw [hf] at hpend
          exact absurd hpend (by decide)
        · have hret := (hp1 (by omega)).1
          rw [hf] at hret
          exact absurd hret (by decide)
      · omega
    · intro hge
      exact ((hspec n).2 (by omega)).1

/-- Always-failing example task with maxRetries = 2 and retryDelay = 0,
    matching the scenario in the spec. -/
def exTask : BackgroundTask :=
  { task_id := "t", name := "always-raises", max_retries := 2, retry_delay := 0 }

def exMsgs : Nat → String := fun i => "attempt " ++ toString i ++ " failed"

def exTimes : Nat → Nat := fun i => i

/-- Witness for C3 on the concrete maxRetries = 2 scenario: Retrying after
    passes 1 and 2, Failed with retryCount 3 after pass 3. -/
theorem C3_witness :
    (failRun exTask exMsgs exTimes 1).res.status = .retrying ∧
    (failRun exTask exMsgs exTimes 2).res.status = .retrying ∧
    (failRun exTask exMsgs exTimes 3).res.status = .failed ∧
    (failRun exTask exMsgs exTimes 3).res.retry_count = 3 := by
  have h := C3_retry_exhaustion exTask exMsgs exTimes
  exact ⟨(h.1 1 (by decide) (by decide)).1, (h.1 2 (by decide) (by decide)).1,
    h.2.1.1, h.2.1.2.1⟩

def c8res : TaskResult :=
  { task_id := "t8", status := .running, start_time := some 100 }

def c8task : BackgroundTask :=
  { task_id := "t8", name := "retry-at-once", retry_delay := 0 }

/-- C8 counterexample: with retryDelay = 0 the failure handler invoked at time
    100 sets status Retrying but stamps scheduledAt with time 100 itself, the
    moment of the failure, which is not strictly in the future. -/
theorem C8_counterexample :
    (handle_task_failure c8res c8task "boom" 100).1.status = .retrying ∧
    (handle_task_failure c8res c8task "boom" 100).2.scheduled_at = some 100 ∧
    ¬ (100 : Nat) < 100 := by decide

/-- C8 (amended): whenever the failure handler sets status Retrying (exactly
    when another attempt is allowed) it stamps scheduledAt with the failure
    time plus retryDelay, which lies strictly in the future if and only if
    retryDelay is positive; with retryDelay = 0 it equals the failure moment
    itself. -/
theorem C8_amended_retry_schedule (r : TaskResult) (task : BackgroundTask)
    (msg : String) (now : Nat) :
    ((handle_task_failure r task msg now).1.status = .retrying ↔
      r.retry_count + 1 ≤ task.max_retries) ∧
    (r.retry_count + 1 ≤ task.max_retries →
      (handle_task_failure r task msg now).2.scheduled_at =
        some (now + task.retry_delay) ∧
      (now < now + task.retry_delay ↔ 0 < task.retry_delay)) := by
  unfold handle_task_failure
  by_cases h : r.retry_count + 1 ≤ task.max_retries
  · simp [h]
  · simp [h]

/-- Witness for the amended C8 at a positive delay: a failure at time 7 with
    retryDelay 5 schedules the retry at time 12, strictly after 7. -/
theorem C8_witness :
    (handle_task_failure { task_id := "w", status := .running }
        { task_id := "w", name := "w", max_retries := 3, retry_delay := 5 }
        "e" 7).2.scheduled_at = some 12 ∧
    (7 : Nat) < 12 := by
  have h := (C8_amended_retry_schedule { task_id := "w", status := .running }
    { task_id := "w", name := "w", max_retries := 3, retry_delay := 5 } "e" 7).2
    (by decide)
  exact ⟨h.1, h.2.mpr (by decide)⟩

/-! ### Claim C1: field invariants of the stored records -/

/-- Per-record field invariant: the error field is populated exactly when at
    least one attempt has failed, the result payload is present exactly on
    Completed records, and Failed and Retrying records always carry an error
    message. -/
def RecInv (r : TaskResult) : Prop :=
  (r.error.isSome ↔ 1 ≤ r.retry_count) ∧
  (r.result.isSome ↔ r.status = .completed) ∧
  (r.status = .failed → r.error.isSome) ∧
  (r.status = .retrying → r.error.isSome)

/-- Executor-level invariant: both dicts have duplicate-free keys, every
    stored record satisfies RecInv, and no id in the backlog or in the running
    map points at a Completed record (a record becomes Completed in the same
    step that removes its id from both maps). -/
def ExecInv (s : ExecutorState) : Prop :=
  (s.results.map Prod.fst).Nodup ∧
  (s.tasks.map Prod.fst).Nodup ∧
  (∀ p ∈ s.results, RecInv p.2) ∧
  (∀ p ∈ s.tasks, ∀ r, dictGet p.1 s.results = some r → r.status ≠ .completed) ∧
  (∀ tid ∈ s.running_tasks, ∀ r, dictGet tid s.results = some r →
    r.status ≠ .completed)

theorem execInv_build {maxc dto mra : Nat} {tasks : List (String × BackgroundTask)}
    {results : List (String × TaskResult)} {running : List String} {isr : Bool}
    (hn1 : (results.map Prod.fst).Nodup)
    (hn2 : (tasks.map Prod.fst).Nodup)
    (hrec : ∀ p ∈ results, RecInv p.2)
    (haux : ∀ p ∈ tasks, ∀ r, dictGet p.1 results = some r → r.status ≠ .completed)
    (haux2 : ∀ tid ∈ running, ∀ r, dictGet tid results = some r →
      r.status ≠ .completed) :
    ExecInv ⟨maxc, dto, mra, tasks, results, running, isr⟩ :=
  ⟨hn1, hn2, hrec, haux, haux2⟩

theorem recInv_fresh (tid : String) :
    RecInv { task_id := tid, status := .pending } := by
  simp [RecInv]

theorem recInv_fresh_cancelled (tid : String) :
    RecInv { task_id := tid, status := .cancelled } := by
  simp [RecInv]

theorem recInv_result_none {r : TaskResult} (h : RecInv r)
    (hne : r.status ≠ .completed) : r.result = none := by
  cases hr : r.result with
  | none => rfl
  | some v => exact absurd (h.2.1.mp (by simp [hr])) hne

theorem recInv_startResult {r : TaskResult} (h : RecInv r)
    (hne : r.status ≠ .completed) (now : Nat) : RecInv (startResult r now) := by
  have hres := recInv_result_none h hne
  obtain ⟨h1, h2, h3, h4⟩ := h
  refine ⟨?_, ?_, ?_, ?_⟩ <;> simp [startResult, h1, hres]

theorem recInv_completeResult {r : TaskResult} (h : RecInv r) (payload : String)
    (now : Nat) : RecInv (completeResult r payload now) := by
  obtain ⟨h1, h2, h3, h4⟩ := h
  refine ⟨?_, ?_, ?_, ?_⟩ <;> simp [completeResult, h1]

theorem recInv_cancelResult {r : TaskResult} (h : RecInv r)
    (hne : r.status ≠ .completed) (now : Nat) : RecInv (cancelResult r now) := by
  have hres := recInv_result_none h hne
  obtain ⟨h1, h2, h3, h4⟩ := h
  refine ⟨?_, ?_, ?_, ?_⟩ <;> simp [cancelResult, h1, hres]

theorem recInv_handle_fst {r : TaskResult} {task : BackgroundTask} (h : RecInv r)
    (hne : r.status ≠ .completed) (msg : String) (now : Nat) :
    RecInv (handle_task_failure r task msg now).1 := by
  have hres := recInv_result_none h hne
  obtain ⟨h1, h2, h3, h4⟩ := h
  unfold handle_task_failure
  by_cases hc : r.retry_count + 1 ≤ task.max_retries
  · simp [hc, RecInv, hres]
  · simp [hc, RecInv, hres]

/-- Any record reached through the start-task update of the results map has
    status Running, hence is not Completed. -/
theorem dictGet_update_start_ne_completed {results : List (String × TaskResult)}
    {tid : String} {now : Nat} {r : TaskResult}
    (hr : dictGet tid (dictUpdate tid (fun r2 => startResult r2 now) results) =
      some r) : r.status ≠ .completed := by
  rw [dictGet_dictUpdate_self] at hr
  cases hg : dictGet tid results with
  | none => rw [hg] at hr; simp at hr
  | some v =>
    rw [hg] at hr
    simp only [Option.map_some'] at hr
    have hv := Option.some.inj hr
    rw [← hv]
    simp [startResult]

theorem execInv_start {s : ExecutorState} (h : ExecInv s) : ExecInv s.start := by
  unfold ExecutorState.start
  split
  · exact h
  · exact h

theorem execInv_submit {s : ExecutorState} (h : ExecInv s) (tid nm : String)
    (prio : TaskPriority) (mr rd : Nat) (tmo sa : Option Nat) (now : Nat) :
    ExecInv (s.submit_task tid nm prio mr rd tmo sa now) := by
  obtain ⟨hn1, hn2, hrec, haux, haux2⟩ := h
  apply execInv_build
  · exact keys_nodup_dictSet _ _ hn1
  · exact keys_nodup_dictSet _ _ hn2
  · intro p hp
    rcases mem_dictSet hp with h3 | h3
    · rw [h3]
      exact recInv_fresh tid
    · exact hrec p h3
  · intro p hp r hr
    by_cases he : p.1 = tid
    · rw [he, dictGet_dictSet_self] at hr
      have := Option.some.inj hr
      rw [← this]
      simp
    · rw [dictGet_dictSet_ne he] at hr
      rcases mem_dictSet hp with h3 | h3
      · exact absurd (congrArg Prod.fst h3) he
      · exact haux p h3 r hr
  · intro t ht r hr
    by_cases he : t = tid
    · rw [he, dictGet_dictSet_self] at hr
      have := Option.some.inj hr
      rw [← this]
      simp
    · rw [dictGet_dictSet_ne he] at hr
      exact haux2 t ht r hr

theorem execInv_start_task {s : ExecutorState} (h : ExecInv s) (tid : String)
    (now : Nat)
    (hcond : ∀ r, dictGet tid s.results = some r → r.status ≠ .completed) :
    ExecInv (s.start_task tid now) := by
  obtain ⟨hn1, hn2, hrec, haux, haux2⟩ := h
  apply execInv_build
  · rw [keys_dictUpdate]
    exact hn1
  · exact hn2
  · intro p hp
    rcases mem_dictUpdate hp with h3 | ⟨v, hv, hpv⟩
    · exact hrec p h3
    · rw [hpv]
      have hvin : RecInv v := hrec (tid, v) hv
      have hget : dictGet tid s.results = some v := dictGet_of_mem_nodup hn1 hv
      exact recInv_startResult hvin (hcond v hget) now
  · intro p hp r hr
    by_cases he : p.1 = tid
    · rw [he] at hr
      exact dictGet_update_start_ne_completed hr
    · rw [dictGet_dictUpdate_ne he] at hr
      exact haux p hp r hr
  · intro t ht r hr
    by_cases he : t = tid
    · rw [he] at hr
      exact dictGet_update_start_ne_completed hr
    · rw [dictGet_dictUpdate_ne he] at hr
      rcases List.mem_append.mp ht with ht2 | ht2
      · exact haux2 t ht2 r hr
      · exact absurd (List.mem_singleton.mp ht2) he

theorem execInv_startLoop (now : Nat) (l : List (String × BackgroundTask)) :
    ∀ s : ExecutorState, ExecInv s → (∀ p ∈ l, p ∈ s.tasks) →
      ExecInv (startLoop now s l) := by
  induction l with
  | nil => intro s h _; exact h
  | cons p rest ih =>
    intro s h hl
    obtain ⟨tid, task⟩ := p
    rw [startLoop]
    by_cases hb : s.max_concurrent_tasks ≤ s.running_tasks.length
    · simp only [hb, if_true]
      exact h
    · simp only [hb, if_false]
      apply ih
      · apply execInv_start_task h tid now
        intro r hr
        exact h.2.2.2.1 (tid, task) (hl _ (List.mem_cons_self _ _)) r hr
      · intro q hq
        exact hl q (List.mem_cons_of_mem _ hq)

theorem execInv_process {s : ExecutorState} (h : ExecInv s) (now : Nat) :
    ExecInv (s.process_pending_tasks now) := by
  unfold ExecutorState.process_pending_tasks
  by_cases h1 : s.tasks.isEmpty
  · simp only [h1, if_true]
    exact h
  · simp only [h1, if_false]
    by_cases h2 : (readyTasks s now).isEmpty
    · simp only [h2, if_true]
      exact h
    · simp only [h2, if_false]
      apply execInv_startLoop now _ s h
      intro p hp
      have hp2 := mem_sortByKeyDesc prioKey hp
      exact (List.mem_filter.mp hp2).1

theorem stopCancelRunning_inv (now : Nat) (runAll : List String) :
    ∀ (l : List String), (∀ t ∈ l, t ∈ runAll) →
    ∀ results : List (String × TaskResult),
      (results.map Prod.fst).Nodup →
      (∀ p ∈ results, RecInv p.2) →
      (∀ t ∈ runAll, ∀ r, dictGet t results = some r → r.status ≠ .completed) →
      (((stopCancelRunning now l results).map Prod.fst).Nodup ∧
        (∀ p ∈ stopCancelRunning now l results, RecInv p.2) ∧
        (∀ t ∈ runAll, ∀ r, dictGet t (stopCancelRunning now l results) = some r →
          r.status ≠ .completed)) := by
  intro l
  induction l with
  | nil =>
    intro _ results hn hrec hcomp
    exact ⟨hn, hrec, hcomp⟩
  | cons t0 ts ih =>
    intro hsub results hn hrec hcomp
    by_cases hg : (dictGet t0 results).isSome
    · have hunfold : stopCancelRunning now (t0 :: ts) results =
          stopCancelRunning now ts
            (dictUpdate t0 (fun r => cancelResult r now) results) := by
        unfold stopCancelRunning
        rw [List.foldl_cons]
        simp [hg]
      rw [hunfold]
      apply ih (fun t htm => hsub t (List.mem_cons_of_mem _ htm))
      · rw [keys_dictUpdate]
        exact hn
      · intro p hp
        rcases mem_dictUpdate hp with h3 | ⟨v, hv, hpv⟩
        · exact hrec p h3
        · rw [hpv]
          have hvin : RecInv v := hrec (t0, v) hv
          have hget : dictGet t0 results = some v := dictGet_of_mem_nodup hn hv
          exact recInv_cancelResult hvin
            (hcomp t0 (hsub t0 (List.mem_cons_self _ _)) v hget) now
      · intro t ht r hr
        by_cases he : t = t0
        · rw [he, dictGet_dictUpdate_self] at hr
          cases hg2 : dictGet t0 results with
          | none => rw [hg2] at hr; simp at hr
          | some v =>
            rw [hg2] at hr
            simp only [Option.map_some'] at hr
            have hv := Option.some.inj hr
            rw [← hv]
            simp [cancelResult]
        · rw [dictGet_dictUpdate_ne he] at hr
          exact hcomp t ht r hr
    · have hunfold : stopCancelRunning now (t0 :: ts) results =
          stopCancelRunning now ts results := by
        unfold stopCancelRunning
        rw [List.foldl_cons]
        simp [hg]
      rw [hunfold]
      exact ih (fun t htm => hsub t (List.mem_cons_of_mem _ htm)) results hn hrec hcomp

theorem stopCancelPending_inv :
    ∀ (l : List (String × BackgroundTask)) (results : List (String × TaskResult)),
      (results.map Prod.fst).Nodup → (∀ p ∈ results, RecInv p.2) →
      (((stopCancelPending l results).map Prod.fst).Nodup ∧
        ∀ p ∈ stopCancelPending l results, RecInv p.2) := by
  intro l
  induction l with
  | nil =>
    intro results hn hrec
    exact ⟨hn, hrec⟩
  | cons q qs ih =>
    intro results hn hrec
    by_cases hg : (dictGet q.1 results).isSome
    · have hunfold : stopCancelPending (q :: qs) results =
          stopCancelPending qs results := by
        unfold stopCancelPending
        rw [List.foldl_cons]
        simp [hg]
      rw [hunfold]
      exact ih results hn hrec
    · have hunfold : stopCancelPending (q :: qs) results =
          stopCancelPending qs
            (dictSet q.1 { task_id := q.1, status := .cancelled } results) := by
        unfold stopCancelPending
        rw [List.foldl_cons]
        simp [hg]
      rw [hunfold]
      apply ih
      · exact keys_nodup_dictSet _ _ hn
      · intro p hp
        rcases mem_dictSet hp with h3 | h3
        · rw [h3]
          exact recInv_fresh_cancelled q.1
        · exact hrec p h3

theorem execInv_stop {s : ExecutorState} (h : ExecInv s) (now : Nat) :
    ExecInv (s.stop now) := by
  obtain ⟨hn1, hn2, hrec, haux, haux2⟩ := h
  unfold ExecutorState.stop
  by_cases hr : s.is_running
  · simp only [hr, if_true]
    have h1 := stopCancelRunning_inv now s.running_tasks s.running_tasks
      (fun t ht => ht) s.results hn1 hrec haux2
    have h2 := stopCancelPending_inv s.tasks _ h1.1 h1.2.1
    refine execInv_build h2.1 List.nodup_nil h2.2 ?_ ?_
    · intro p hp
      exact absurd hp (List.not_mem_nil p)
    · intro t ht
      exact absurd ht (List.not_mem_nil t)
  · simp only [hr, if_false]
    exact ⟨hn1, hn2, hrec, haux, haux2⟩

theorem execInv_finish {s : ExecutorState} (h : ExecInv s) (tid : String)
    (outcome : Except String String) (now : Nat) :
    ExecInv (s.finish_attempt tid outcome now) := by
  obtain ⟨hn1, hn2, hrec, haux, haux2⟩ := h
  unfold ExecutorState.finish_attempt
  by_cases hin : tid ∈ s.running_tasks
  · simp only [hin, if_true]
    cases hgr : dictGet tid s.results with
    | none =>
      cases hgt : dictGet tid s.tasks <;> exact ⟨hn1, hn2, hrec, haux, haux2⟩
    | some r =>
      cases hgt : dictGet tid s.tasks with
      | none => exact ⟨hn1, hn2, hrec, haux, haux2⟩
      | some task =>
        have hrRec : RecInv r := hrec (tid, r) (mem_of_dictGet hgr)
        have hrnc : r.status ≠ .completed := haux2 tid hin r hgr
        cases outcome with
        | ok payload =>
          apply execInv_build
          · exact keys_nodup_dictSet _ _ hn1
          · exact keys_nodup_filter _ hn2
          · intro p hp
            rcases mem_dictSet hp with h3 | h3
            · rw [h3]
              exact recInv_completeResult hrRec payload now
            · exact hrec p h3
          · intro p hp r2 hr2
            have hpp := mem_dictPop hp
            rw [dictGet_dictSet_ne hpp.2] at hr2
            exact haux p hpp.1 r2 hr2
          · intro t ht r2 hr2
            have ht2 := List.mem_filter.mp ht
            have htne : t ≠ tid := of_decide_eq_true ht2.2
            rw [dictGet_dictSet_ne htne] at hr2
            exact haux2 t ht2.1 r2 hr2
        | error msg =>
          have hhRec : RecInv (handle_task_failure r task msg now).1 :=
            recInv_handle_fst hrRec hrnc msg now
          apply execInv_build
          · exact keys_nodup_dictSet _ _ hn1
          · by_cases hst : (handle_task_failure r task msg now).1.status = .retrying
            · rw [if_pos hst]
              exact keys_nodup_dictSet _ _ hn2
            · rw [if_neg hst]
              exact keys_nodup_filter _ hn2
          · intro p hp
            rcases mem_dictSet hp with h3 | h3
            · rw [h3]
              exact hhRec
            · exact hrec p h3
          · intro p hp r2 hr2
            by_cases hst : (handle_task_failure r task msg now).1.status = .retrying
            · rw [if_pos hst] at hp
              by_cases he : p.1 = tid
              · rw [he, dictGet_dictSet_self] at hr2
                have := Option.some.inj hr2
                rw [← this, hst]
                simp
              · rw [dictGet_dictSet_ne he] at hr2
                rcases mem_dictSet hp with h3 | h3
                · exact absurd (congrArg Prod.fst h3) he
                · exact haux p h3 r2 hr2
            · rw [if_neg hst] at hp
              have hpp := mem_dictPop hp
              rw [dictGet_dictSet_ne hpp.2] at hr2
              exact haux p hpp.1 r2 hr2
          · intro t ht r2 hr2
            have ht2 := List.mem_filter.mp ht
            have htne : t ≠ tid := of_decide_eq_true ht2.2
            rw [dictGet_dictSet_ne htne] at hr2
            exact haux2 t ht2.1 r2 hr2
  · simp only [hin, if_false]
    exact ⟨hn1, hn2, hrec, haux, haux2⟩

theorem execInv_cleanup {s : ExecutorState} (h : ExecInv s) (now : Nat) :
    ExecInv (s.cleanup_old_results now) := by
  obtain ⟨hn1, hn2, hrec, haux, haux2⟩ := h
  unfold ExecutorState.cleanup_old_results
  apply execInv_build
  · exact keys_nodup_filter _ hn1
  · exact keys_nodup_filter _ hn2
  · intro p hp
    exact hrec p (List.mem_filter.mp hp).1
  · intro p hp r hr
    have hp2 := (List.mem_filter.mp hp).1
    have hmem := mem_of_dictGet hr
    have hmem2 := (List.mem_filter.mp hmem).1
    exact haux p hp2 r (dictGet_of_mem_nodup hn1 hmem2)
  · intro t ht r hr
    have hmem := mem_of_dictGet hr
    have hmem2 := (List.mem_filter.mp hmem).1
    exact haux2 t ht r (dictGet_of_mem_nodup hn1 hmem2)

/-- The executor invariant holds in every reachable state. -/
theorem executor_invariant {s : ExecutorState} (h : Reachable s) : ExecInv s := by
  induction h with
  | init maxConc tmo age =>
    refine ⟨List.nodup_nil, List.nodup_nil, ?_, ?_, ?_⟩
    · intro p hp
      exact absurd hp (List.not_mem_nil p)
    · intro p hp
      exact absurd hp (List.not_mem_nil p)
    · intro t ht
      exact absurd ht (List.not_mem_nil t)
  | step hr hst ih =>
    rename_i s1 s2
    cases hst with
    | start => exact execInv_start ih
    | stop now => exact execInv_stop ih now
    | submit tid nm prio mr rd tmo sa now =>
      exact execInv_submit ih tid nm prio mr rd tmo sa now
    | process now => exact execInv_process ih now
    | finish tid outcome now => exact execInv_finish ih tid outcome now
    | cleanup now => exact execInv_cleanup ih now

/-- Concurrency-1 executor whose single task fails once (attempt at time 0,
    raising boom at time 1, retryDelay 0) and then succeeds at time 3. -/
def c1s0 : ExecutorState :=
  ((initialExecutor 1 300 86400).start).submit_task "t1" "job"
    .normal 3 0 none none 0

def c1s1 : ExecutorState := c1s0.process_pending_tasks 0

def c1s2 : ExecutorState := c1s1.finish_attempt "t1" (.error "boom") 1

def c1s3 : ExecutorState := c1s2.process_pending_tasks 2

def c1final : ExecutorState := c1s3.finish_attempt "t1" (.ok "done") 3

/-- Record stored for t1 after the fail-then-succeed run. -/
def recC1 : TaskResult :=
  { task_id := "t1", status := .completed, result := some "done",
    error := some "boom", start_time := some 2, end_time := some 3,
    duration_seconds := some 1, retry_count := 1 }

/-- C1 counterexample: a task that is Completed after one failed attempt has
    its result set and its error still set (the success path never clears the
    error written by the earlier retry), so the claimed exactly-one-of
    result/error does not hold for it. -/
theorem C1_counterexample :
    dictGet "t1" c1final.results = some recC1 ∧
    recC1.status = .completed ∧ recC1.result.isSome = true ∧
    recC1.error.isSome = true ∧ 1 ≤ recC1.retry_count := by decide

/-- C1 (amended): in every reachable state, a Failed record has error set and
    result unset, a Cancelled record has result unset, and a Completed record
    has result set while its error is set exactly when some earlier attempt
    failed (retry_count is at least 1); the last error message survives a
    later success. -/
theorem C1_amended_terminal_fields (s : ExecutorState) (h : Reachable s) :
    ∀ p ∈ s.results,
      (p.2.status = .failed → p.2.error.isSome ∧ p.2.result = none) ∧
      (p.2.status = .cancelled → p.2.result = none) ∧
      (p.2.status = .completed →
        p.2.result.isSome ∧ (p.2.error.isSome ↔ 1 ≤ p.2.retry_count)) := by
  have hinv := executor_invariant h
  intro p hp
  obtain ⟨h1, h2, h3, h4⟩ := hinv.2.2.1 p hp
  refine ⟨?_, ?_, ?_⟩
  · intro hst
    refine ⟨h3 hst, ?_⟩
    cases hres : p.2.result with
    | none => rfl
    | some v =>
      have hco := h2.mp (by simp [hres])
      rw [hst] at hco
      exact absurd hco (by decide)
  · intro hst
    cases hres : p.2.result with
    | none => rfl
    | some v =>
      have hco := h2.mp (by simp [hres])
      rw [hst] at hco
      exact absurd hco (by decide)
  · intro hst
    exact ⟨h2.mpr hst, h1⟩

/-- Witness for the amended C1 at the concrete fail-then-succeed state, whose
    reachability is exhibited step by step. -/
theorem C1_witness :
    ("t1", recC1) ∈ c1final.results ∧ recC1.status = .completed ∧
    recC1.result.isSome = true ∧
    (recC1.error.isSome ↔ 1 ≤ recC1.retry_count) := by
  have r0 : Reachable (initialExecutor 1 300 86400) := Reachable.init 1 300 86400
  have r1 : Reachable ((initialExecutor 1 300 86400).start) :=
    r0.step (ExecStep.start _)
  have r2 : Reachable c1s0 :=
    r1.step (ExecStep.submit _ "t1" "job" .normal 3 0 none none 0)
  have r3 : Reachable c1s1 := r2.step (ExecStep.process _ 0)
  have r4 : Reachable c1s2 := r3.step (ExecStep.finish _ "t1" (.error "boom") 1)
  have r5 : Reachable c1s3 := r4.step (ExecStep.process _ 2)
  have r6 : Reachable c1final := r5.step (ExecStep.finish _ "t1" (.ok "done") 3)
  have h := C1_amended_terminal_fields c1final r6 ("t1", recC1) (by decide)
  have hc := h.2.2 (by decide)
  exact ⟨by decide, by decide, hc.1, hc.2⟩

/-! ### Claim C2: what stop() actually does to pending tasks -/

/-- Concurrency-1 executor with a running task r1 and a still-pending task p1
    at the moment stop() is called. -/
def c2bs : ExecutorState :=
  (((initialExecutor 1 300 86400).start).submit_task "r1" "runner"
      .high 3 5 none none 0).submit_task "p1" "pend" .normal 3 5 none none 1

def c2brun : ExecutorState := c2bs.process_pending_tasks 2

def c2bstopped : ExecutorState := c2brun.stop 9

/-- C2 (code bug, evaluated at the failing input): before stop() the task p1 is
    submitted but never started (its record is Pending and only r1 runs);
    after stop() the in-flight r1 is Cancelled with endTime stamped and both
    internal maps are cleared, but the pending p1 keeps status Pending in the
    results map instead of becoming Cancelled, because the branch of stop()
    that would mark pending submissions Cancelled only fires for ids absent
    from the results map and submit_task always inserts a Pending record. -/
theorem C2_stop_behavior :
    c2brun.running_tasks = ["r1"] ∧
    (dictGet "p1" c2brun.results).map TaskResult.status = some .pending ∧
    (dictGet "p1" c2bstopped.results).map TaskResult.status = some .pending ∧
    (dictGet "r1" c2bstopped.results).map
      (fun r => (r.status, r.end_time)) = some (.cancelled, some 9) ∧
    c2bstopped.tasks = [] ∧ c2bstopped.running_tasks = [] := by decide

/-! ### Claim C4: ordering of list_tasks -/

/-- Executor, concurrency 2, with tB submitted at time 5 (still running) and
    tA submitted at time 10 and already Completed. -/
def c4a : ExecutorState :=
  (((initialExecutor 2 300 86400).start).submit_task "tB" "B"
      .normal 3 5 none none 5).submit_task "tA" "A" .normal 3 5 none none 10

def c4b : ExecutorState :=
  (c4a.process_pending_tasks 11).finish_attempt "tA" (.ok "done") 12

/-- C4 counterexample: tA was created later (time 10) than tB (time 5), and tA
    is terminal (Completed, removed from the backlog), yet list_tasks places
    tB first and tA last: a terminal summary carries no creation time (the
    backlog entry that held created_at is gone), so it sorts under the
    empty-string key after every timestamped summary, not in descending
    creation order. -/
theorem C4_counterexample :
    ((c4b.list_tasks none none).map fun sm => (sm.task_id, sm.created_at)) =
      [("tB", some 5), ("tA", none)] ∧
    (dictGet "tA" c4a.tasks).map BackgroundTask.created_at = some 10 ∧
    (dictGet "tB" c4a.tasks).map BackgroundTask.created_at = some 5 ∧
    (dictGet "tA" c4b.results).map TaskResult.status = some .completed := by decide

/-- C4 (amended): for every state, status filter and limit, list_tasks returns
    the matching summaries (terminal ones included: the output ids are a
    permutation of the ids of the filtered records) sorted in descending order
    of the created-at sort key; summaries of tasks still in the backlog carry
    their creation time, while summaries of tasks no longer in the backlog
    (in particular terminal ones) have an empty key and therefore appear after
    all timestamped summaries, not in descending creation order. -/
theorem C4_amended_ordering (s : ExecutorState) (flt : Option TaskStatus) :
    (∀ limit, (s.list_tasks flt limit).Pairwise
      fun a b => createdKey b ≤ createdKey a) ∧
    List.Perm ((s.list_tasks flt none).map TaskSummary.task_id)
      ((s.results.filter fun p => statusMatch flt p.2).map Prod.fst) := by
  constructor
  · intro limit
    unfold ExecutorState.list_tasks
    cases limit with
    | none => exact pairwise_sortByKeyDesc createdKey _
    | some n =>
      dsimp only
      by_cases hn : n = 0
      · rw [if_pos hn]
        exact pairwise_sortByKeyDesc createdKey _
      · rw [if_neg hn]
        exact List.Pairwise.sublist (List.take_sublist n _)
          (pairwise_sortByKeyDesc createdKey _)
  · unfold ExecutorState.list_tasks
    have hperm := perm_sortByKeyDesc createdKey
      ((s.results.filter fun p => statusMatch flt p.2).map (summarize s.tasks))
    have hmap := hperm.map TaskSummary.task_id
    rw [List.map_map] at hmap
    have hfun : (TaskSummary.task_id ∘ summarize s.tasks) =
        (Prod.fst : String × TaskResult → String) := by
      funext q
      rfl
    rw [hfun] at hmap
    exact hmap

/-! ### Claim C10: frame property of the cleanup pass -/

/-- C10: the cleanup pass keeps every record that is non-terminal or lacks an
    endTime (such a record survives unchanged, whatever its age), and any
    record it removes was terminal with an endTime older than the retention
    cutoff. -/
theorem C10_cleanup_frame (s : ExecutorState) (now : Nat)
    (p : String × TaskResult) (hp : p ∈ s.results) :
    ((isFinishedStatus p.2.status = false ∨ p.2.end_time = none) →
      p ∈ (s.cleanup_old_results now).results) ∧
    (p ∉ (s.cleanup_old_results now).results →
      isFinishedStatus p.2.status = true ∧
      ∃ e, p.2.end_time = some e ∧ e < now - s.max_result_age) := by
  unfold ExecutorState.cleanup_old_results
  constructor
  · intro h
    refine List.mem_filter.mpr ⟨hp, ?_⟩
    rcases h with h | h
    · simp [shouldClean, h]
    · simp [shouldClean, h]
  · intro h
    by_cases hf : isFinishedStatus p.2.status = true
    · cases he : p.2.end_time with
      | none =>
        exact absurd (List.mem_filter.mpr ⟨hp, by simp [shouldClean, he]⟩) h
      | some e =>
        by_cases hlt : e < now - s.max_result_age
        · exact ⟨hf, e, rfl, hlt⟩
        · exact absurd (List.mem_filter.mpr ⟨hp, by simp [shouldClean, he, hlt]⟩) h
    · refine absurd (List.mem_filter.mpr ⟨hp, ?_⟩) h
      simp only [Bool.not_eq_true] at hf
      simp [shouldClean, hf]

/-- Cancelled record without endTime, as a terminal-but-unstamped cleanup
    candidate. -/
def c10rec : TaskResult := { task_id := "x", status := .cancelled }

def c10s : ExecutorState :=
  { max_concurrent_tasks := 5, default_timeout := 300, max_result_age := 10,
    results := [("x", c10rec)] }

/-- Witness for C10: a Cancelled record without endTime survives a cleanup run
    far past the retention age. -/
theorem C10_witness :
    ("x", c10rec) ∈ (c10s.cleanup_old_results 1000).results := by
  exact (C10_cleanup_frame c10s 1000 ("x", c10rec) (by decide)).1 (Or.inr rfl)

/-! ### Claim C6: manual job trigger on the scheduler -/

/-- Scheduler right after start(): exactly the three registered jobs. -/
def startedScheduler : SchedulerState := SchedulerService.start {}

/-- C6: on the started scheduler, trigger_job_now with an unregistered job id
    returns triggered = false, the given job id and a non-empty error message
    (and, being a total function, raises nothing); with a registered id it
    returns triggered = true, the id and the matching callback's own
    envelope. -/
theorem C6_trigger_unknown_known (jid : String) (w e h : JobEnvelope) :
    (jid ∉ startedScheduler.jobs →
      SchedulerService.trigger_job_now startedScheduler jid w e h =
        { triggered := false, job_id := jid,
          error := some ("작업을 찾을 수 없습니다: " ++ jid) } ∧
      ("작업을 찾을 수 없습니다: " ++ jid) ≠ "") ∧
    (jid ∈ startedScheduler.jobs →
      (SchedulerService.trigger_job_now startedScheduler jid w e h).triggered
          = true ∧
      (SchedulerService.trigger_job_now startedScheduler jid w e h).job_id
          = jid ∧
      (SchedulerService.trigger_job_now startedScheduler jid w e h).error
          = none ∧
      (jid = "weekly_ssl_check" →
        (SchedulerService.trigger_job_now startedScheduler jid w e h).result
          = some w) ∧
      (jid = "expiry_notifications" →
        (SchedulerService.trigger_job_now startedScheduler jid w e h).result
          = some e) ∧
      (jid = "scheduler_health_check" →
        (SchedulerService.trigger_job_now startedScheduler jid w e h).result
          = some h)) := by
  constructor
  · intro hn
    constructor
    · unfold SchedulerService.trigger_job_now
      rw [if_neg hn]
    · intro hc
      have h1 := congrArg String.length hc
      rw [String.length_append] at h1
      have h2 : 0 < ("작업을 찾을 수 없습니다: " : String).length := by decide
      have h3 : ("" : String).length = 0 := rfl
      rw [h3] at h1
      omega
  · intro hm
    have hjobs : startedScheduler.jobs =
        ["weekly_ssl_check", "expiry_notifications", "scheduler_health_check"] := by
      decide
    rw [hjobs] at hm
    have hm2 : jid = "weekly_ssl_check" ∨ jid = "expiry_notifications" ∨
        jid = "scheduler_health_check" := by
      simpa using hm
    rcases hm2 with rfl | rfl | rfl
    · exact ⟨rfl, rfl, rfl, fun _ => rfl, fun hx => absurd hx (by decide),
        fun hx => absurd hx (by decide)⟩
    · exact ⟨rfl, rfl, rfl, fun hx => absurd hx (by decide), fun _ => rfl,
        fun hx => absurd hx (by decide)⟩
    · exact ⟨rfl, rfl, rfl, fun hx => absurd hx (by decide),
        fun hx => absurd hx (by decide), fun _ => rfl⟩

def wEnv : JobEnvelope := { job_type := "weekly_ssl_check", status := "completed" }

def eEnv : JobEnvelope :=
  { job_type := "expiry_notifications", status := "completed" }

def hEnv : JobEnvelope := { job_type := "health_check", status := "completed" }

/-- Witness for C6: the unknown id nonexistent yields a triggered = false
    outcome with a non-empty error, and the known id weekly_ssl_check yields
    triggered = true with the weekly callback's envelope. -/
theorem C6_witness :
    (SchedulerService.trigger_job_now startedScheduler "nonexistent"
        wEnv eEnv hEnv).triggered = false ∧
    (SchedulerService.trigger_job_now startedScheduler "nonexistent"
        wEnv eEnv hEnv).error =
      some ("작업을 찾을 수 없습니다: " ++ "nonexistent") ∧
    ("작업을 찾을 수 없습니다: " ++ "nonexistent") ≠ "" ∧
    (SchedulerService.trigger_job_now startedScheduler "weekly_ssl_check"
        wEnv eEnv hEnv).triggered = true ∧
    (SchedulerService.trigger_job_now startedScheduler "weekly_ssl_check"
        wEnv eEnv hEnv).result = some wEnv := by
  have h1 := (C6_trigger_unknown_known "nonexistent" wEnv eEnv hEnv).1 (by decide)
  have h2 := (C6_trigger_unknown_known "weekly_ssl_check" wEnv eEnv hEnv).2
    (by decide)
  refine ⟨?_, ?_, h1.2, h2.1, h2.2.2.2.1 rfl⟩
  · rw [h1.1]
  · rw [h1.1]

end CheckingSSL
